import Mathlib

/-!
Verification of the RELIEF ticket resale monitor (monitor.py).

The Python source is shallowly embedded: the rendered page handed to
check_event_tickets is modelled as a list of the DOM fragments the three
detection strategies inspect (performance blocks, ticket-select controls
with no enclosing performance block, and clickable elements), timestamps
are modelled as integers (epoch seconds), the persisted JSON state is a
structure with an association list for the notified mapping, and the
playwright calls that can raise are modelled as Except-valued inputs of
the orchestrator.
-/

namespace ReliefMonitor

/-! ## Availability Detector model (check_event_tickets, monitor.py 139-225) -/

/-- An option element inside a ticket-select control; strategy 1 keeps only
the options carrying the data-ticket-no attribute (monitor.py 186). -/
structure TicketOption where
  hasTicketNo : Bool
  text : String
deriving DecidableEq, Repr

/-- A select.ticket-select control with its option elements. -/
structure TicketSelect where
  options : List TicketOption
deriving DecidableEq, Repr

/-- A div.perform-list block: whether its class list contains text-muted,
the text of its .lead descendant and first p descendant when present, the
ticket-select controls it encloses, and the texts of the clickable
elements (button, input[type=submit], a.btn) it encloses. -/
structure PerformList where
  muted : Bool
  lead : Option String
  venueP : Option String
  selects : List TicketSelect
  buttons : List String
deriving DecidableEq, Repr

/-- The DOM fragments of an event page that the three strategies inspect,
in document order: performance blocks, ticket-select controls with no
perform-list ancestor (skipped by strategy 1 via find_parent), and
clickable elements outside any performance block. -/
inductive Node where
  | perform (b : PerformList)
  | straySelect (s : TicketSelect)
  | clickable (text : String)
deriving DecidableEq, Repr

abbrev Page := List Node

/-- The detection method recorded in each availability dict
(monitor.py 193, 210, 222). -/
inductive Method where
  | select
  | active
  | button
deriving DecidableEq, Repr

/-- One availability dict produced by check_event_tickets. -/
structure Listing where
  date : String
  venue : String
  tickets : List String
  method : Method
deriving DecidableEq, Repr

/-- Fallback text used when a date or venue element is absent (monitor.py
182-183, 219-220). -/
def unknownText : String := "不明"

/-- Substring test on character lists, modelling the Python in operator
on strings. -/
def occursIn (n : List Char) : List Char → Bool
  | [] => n.isEmpty
  | c :: cs => n.isPrefixOf (c :: cs) || occursIn n cs

/-- The purchase-continuation phrase scanned for by strategy 3
(monitor.py 217). -/
def purchasePhrase : String := "購入手続き"

def hasPurchasePhrase (t : String) : Bool := occursIn purchasePhrase.data t.data

/-- The availability dict built by strategy 1 for one ticket-select inside
a performance block (monitor.py 180-194). -/
def listingOfSelect (b : PerformList) (s : TicketSelect) : Listing :=
  { date := b.lead.getD unknownText
    venue := b.venueP.getD unknownText
    tickets := (s.options.filter fun o => o.hasTicketNo).map fun o => o.text
    method := Method.select }

/-- Strategy 1 (monitor.py 173-194): every ticket-select control with an
enclosing perform-list block yields one entry; controls with no such
ancestor are skipped. -/
def strat1 (page : Page) : List Listing :=
  (page.map fun n =>
    match n with
    | Node.perform b => b.selects.map (listingOfSelect b)
    | Node.straySelect _ => []
    | Node.clickable _ => []).flatten

/-- Strategy 2 (monitor.py 196-211): every perform-list block whose class
list lacks text-muted yields one entry with empty ticket labels. -/
def strat2 (page : Page) : List Listing :=
  page.filterMap fun n =>
    match n with
    | Node.perform b =>
        if b.muted then none
        else some { date := b.lead.getD unknownText
                    venue := b.venueP.getD unknownText
                    tickets := []
                    method := Method.active }
    | Node.straySelect _ => none
    | Node.clickable _ => none

/-- The synthetic entry appended by strategy 3 (monitor.py 218-223). -/
def buttonListing : Listing :=
  { date := unknownText, venue := unknownText, tickets := [], method := Method.button }

/-- Strategy 3 (monitor.py 213-223): every clickable element whose text
contains the purchase phrase appends one synthetic entry. -/
def strat3 (page : Page) : List Listing :=
  (page.map fun n =>
    match n with
    | Node.perform b => (b.buttons.filter hasPurchasePhrase).map fun _ => buttonListing
    | Node.straySelect _ => []
    | Node.clickable t => if hasPurchasePhrase t then [buttonListing] else []).flatten

/-- check_event_tickets (monitor.py 139-225): strategy 2 runs only when
strategy 1 produced nothing, strategy 3 only when the list is still
empty. -/
def check_event_tickets (page : Page) : List Listing :=
  let available := strat1 page
  let available := if available.isEmpty then strat2 page else available
  let available := if available.isEmpty then strat3 page else available
  available

/-! ## State store (load_state, save_state, monitor.py 53-61) and dedup -/

/-- The persisted state: the notified mapping (dedup key to the epoch
second of first notification) and the last_check field written by
save_state. Keys are inserted only when absent, so the association list
always has distinct keys. -/
structure MonState where
  notified : List (String × Int)
  lastCheck : Option Int
deriving DecidableEq, Repr

/-- load_state (monitor.py 53-56): parse the state file when it exists,
otherwise a mapping with an empty notified field and nothing else. -/
def load_state (file : Option MonState) : MonState :=
  match file with
  | some st => st
  | none => { notified := [], lastCheck := none }

/-- save_state (monitor.py 59-61): stamp last_check with the current time
and write the state back. -/
def save_state (now : Int) (st : MonState) : MonState :=
  { st with lastCheck := some now }

/-- The dedup key built at monitor.py 267 from the event path and the
date and venue of one availability entry. -/
def dedupKey (path date venue : String) : String :=
  path ++ "|" ++ date ++ "|" ++ venue

/-- An event descriptor produced by get_event_urls (monitor.py 129-133). -/
structure EventDesc where
  name : String
  url : String
  path : String
deriving DecidableEq, Repr

/-- One element of new_findings (monitor.py 271-276). -/
structure Finding where
  artist : String
  event_name : String
  event_url : String
  date : String
  venue : String
  tickets : List String
  method : Method
deriving DecidableEq, Repr

/-- The inner loop of run_check over one event's availability entries
(monitor.py 266-276): keys absent from the notified mapping are inserted
with the current time and yield a finding; keys already present are
skipped. -/
def processTickets (artist : String) (event : EventDesc) (now : Int) :
    List Listing → MonState → MonState × List Finding
  | [], st => (st, [])
  | t :: ts, st =>
      let key := dedupKey event.path t.date t.venue
      if (st.notified.lookup key).isSome then
        processTickets artist event now ts st
      else
        let st1 : MonState := { st with notified := (key, now) :: st.notified }
        let r := processTickets artist event now ts st1
        (r.1, { artist := artist
                event_name := event.name
                event_url := event.url
                date := t.date
                venue := t.venue
                tickets := t.tickets
                method := t.method } :: r.2)

/-- The loop of run_check over one artist's events (monitor.py 254-276):
an exception from check_event_tickets is caught and that event is
skipped; an empty availability list is likewise skipped. -/
def processEvents (artist : String) (checkT : EventDesc → Except Unit (List Listing))
    (now : Int) : List EventDesc → MonState → MonState × List Finding
  | [], st => (st, [])
  | e :: es, st =>
      match checkT e with
      | Except.error _ => processEvents artist checkT now es st
      | Except.ok tickets =>
          if tickets.isEmpty then
            processEvents artist checkT now es st
          else
            let r := processTickets artist e now tickets st
            let r2 := processEvents artist checkT now es r.1
            (r2.1, r.2 ++ r2.2)

/-- The loop of run_check over the configured artists (monitor.py
246-276): an exception from get_event_urls is not caught here, so it
propagates out of the cycle. -/
def processArtists (listE : String → Except Unit (List EventDesc))
    (checkT : EventDesc → Except Unit (List Listing)) (now : Int) :
    List String → MonState → Except Unit (MonState × List Finding)
  | [], st => Except.ok (st, [])
  | a :: as, st =>
      match listE a with
      | Except.error err => Except.error err
      | Except.ok events =>
          let r := processEvents a checkT now events st
          match processArtists listE checkT now as r.1 with
          | Except.error err => Except.error err
          | Except.ok r2 => Except.ok (r2.1, r.2 ++ r2.2)

/-- The pruning pass of run_check (monitor.py 300-305): keep exactly the
entries whose timestamp is strictly greater than now minus thirty days. -/
def pruneNotified (now : Int) (m : List (String × Int)) : List (String × Int) :=
  m.filter fun kv => decide (now - 30 * 86400 < kv.2)

/-- run_check (monitor.py 229-308): load the state, walk artists and
events deduplicating findings, then prune and persist. When an artist
listing raises, the exception escapes before pruning and persistence. -/
def run_check (listE : String → Except Unit (List EventDesc))
    (checkT : EventDesc → Except Unit (List Listing))
    (artists : List String) (now : Int) (file : Option MonState) :
    Except Unit (MonState × List Finding) :=
  let st := load_state file
  match processArtists listE checkT now artists st with
  | Except.error err => Except.error err
  | Except.ok r =>
      let st1 : MonState := { r.1 with notified := pruneNotified now r.1.notified }
      Except.ok (save_state now st1, r.2)

/-! ## Listing Extractor model (get_event_urls, monitor.py 102-136) -/

/-- A hyperlink element of the artist index page: its href attribute and
its visible inner text. -/
structure Link where
  href : String
  text : String
deriving DecidableEq, Repr

/-- The artist id table (monitor.py 29-35). -/
def ARTIST_IDS : List (String × Nat) :=
  [("Travis Japan", 38), ("SixTONES", 40), ("King & Prince", 41),
   ("中島健人", 42), ("ジュニア", 15)]

def BASE_URL : String := "https://relief-ticket.jp"

/-- Anchored match of a literal prefix followed by at least one digit,
modelling re.match of the pattern at monitor.py 126. -/
def matchesPat : List Char → List Char → Bool
  | [], [] => false
  | [], c :: _ => c.isDigit
  | _ :: _, [] => false
  | p :: ps, c :: cs => p == c && matchesPat ps cs

/-- The event link pattern for one artist id (monitor.py 126). -/
def matchesEventPath (artistId : Nat) (href : String) : Bool :=
  matchesPat ("/events/artist/" ++ toString artistId ++ "/").data href.data

/-- First line of the stripped link text (monitor.py 128). -/
def firstLine (s : String) : String :=
  (s.trim.splitOn "\n").headD ""

/-- The event dict built at monitor.py 129-133. -/
def mkEventDesc (l : Link) : EventDesc :=
  { name := firstLine l.text, url := BASE_URL ++ l.href, path := l.href }

/-- The link loop of get_event_urls (monitor.py 119-134) with its seen
set of hrefs. -/
def collectEvents (artistId : Nat) : List Link → List String → List EventDesc
  | [], _ => []
  | l :: ls, seen =>
      if matchesEventPath artistId l.href && !(seen.contains l.href) then
        mkEventDesc l :: collectEvents artistId ls (l.href :: seen)
      else
        collectEvents artistId ls seen

/-- get_event_urls (monitor.py 102-136): an unresolvable artist name
yields an empty list after a logged warning; otherwise the link loop
runs with an empty seen set. -/
def get_event_urls (artistName : String) (links : List Link) : List EventDesc :=
  match ARTIST_IDS.lookup artistName with
  | none => []
  | some artistId => collectEvents artistId links []

/-- Specification-side helper for stating C8: keep the first occurrence
of each href. -/
def firstOccurrences : List Link → List String → List Link
  | [], _ => []
  | l :: ls, seen =>
      if seen.contains l.href = true then firstOccurrences ls seen
      else l :: firstOccurrences ls (l.href :: seen)

/-! ## Continuous-mode loop model (main, monitor.py 327-340) -/

/-- What one call of run_check inside the while loop can do: return
normally, raise an ordinary exception, or be interrupted. -/
inductive CycleOutcome where
  | ok
  | exc
  | interrupt
deriving DecidableEq, Repr

/-- The observable actions of the continuous loop. -/
inductive LoopStep where
  | runCheck (i : Nat)
  | logTrace (i : Nat)
  | wait (i : Nat)
deriving DecidableEq, Repr

/-- The while True loop of main (monitor.py 327-340), unrolled to a
finite observation horizon given by fuel: a KeyboardInterrupt in the
cycle or in the sleep breaks out, an ordinary exception is logged with
its traceback and the loop proceeds to the standard wait. -/
def mainLoop (cycle : Nat → CycleOutcome) (sleepInterrupted : Nat → Bool) :
    Nat → Nat → List LoopStep
  | 0, _ => []
  | fuel + 1, i =>
      LoopStep.runCheck i ::
        match cycle i with
        | CycleOutcome.interrupt => []
        | CycleOutcome.ok =>
            LoopStep.wait i ::
              (if sleepInterrupted i then []
               else mainLoop cycle sleepInterrupted fuel (i + 1))
        | CycleOutcome.exc =>
            LoopStep.logTrace i :: LoopStep.wait i ::
              (if sleepInterrupted i then []
               else mainLoop cycle sleepInterrupted fuel (i + 1))

/-! ## Detector lemmas -/

/-- Specification-side helper for stating C6: how many clickable elements
of the page contain the purchase phrase. -/
def countPurchaseButtons (page : Page) : Nat :=
  (page.map fun n =>
    match n with
    | Node.perform b => (b.buttons.filter hasPurchasePhrase).length
    | Node.straySelect _ => 0
    | Node.clickable t => if hasPurchasePhrase t then 1 else 0).sum

theorem check_priority (q : Page) :
    check_event_tickets q =
      if strat1 q = [] then (if strat2 q = [] then strat3 q else strat2 q)
      else strat1 q := by
  cases h1 : strat1 q <;> cases h2 : strat2 q <;>
    simp [check_event_tickets, h1, h2]

theorem mem_strat1 {page : Page} {b : PerformList} {s : TicketSelect}
    (hb : Node.perform b ∈ page) (hs : s ∈ b.selects) :
    listingOfSelect b s ∈ strat1 page := by
  unfold strat1
  rw [List.mem_flatten]
  refine ⟨b.selects.map (listingOfSelect b), ?_, List.mem_map_of_mem _ hs⟩
  exact List.mem_map_of_mem _ hb

theorem strat1_method {page : Page} {x : Listing} (hx : x ∈ strat1 page) :
    x.method = Method.select := by
  unfold strat1 at hx
  rw [List.mem_flatten] at hx
  obtain ⟨l, hl, hxl⟩ := hx
  rw [List.mem_map] at hl
  obtain ⟨n, _, rfl⟩ := hl
  cases n with
  | perform b =>
      rw [List.mem_map] at hxl
      obtain ⟨s, _, rfl⟩ := hxl
      rfl
  | straySelect s => simp at hxl
  | clickable t => simp at hxl

theorem strat1_eq_nil {page : Page}
    (hsel : ∀ b, Node.perform b ∈ page → b.selects = []) :
    strat1 page = [] := by
  induction page with
  | nil => rfl
  | cons n ns ih =>
      have tail : strat1 ns = [] :=
        ih fun b hb => hsel b (List.mem_cons_of_mem _ hb)
      cases n with
      | perform b =>
          have hb : b.selects = [] := hsel b (List.mem_cons_self _ _)
          simp [strat1, hb]
          simpa [strat1] using tail
      | straySelect s => simpa [strat1] using tail
      | clickable t => simpa [strat1] using tail

theorem strat2_eq_nil {page : Page}
    (hm : ∀ b, Node.perform b ∈ page → b.muted = true) :
    strat2 page = [] := by
  induction page with
  | nil => rfl
  | cons n ns ih =>
      have tail : strat2 ns = [] :=
        ih fun b hb => hm b (List.mem_cons_of_mem _ hb)
      cases n with
      | perform b =>
          have hb : b.muted = true := hm b (List.mem_cons_self _ _)
          simpa [strat2, hb] using tail
      | straySelect s => simpa [strat2] using tail
      | clickable t => simpa [strat2] using tail

theorem strat3_eq_nil {page : Page}
    (hbtn : ∀ b t, Node.perform b ∈ page → t ∈ b.buttons → hasPurchasePhrase t = false)
    (hclk : ∀ t, Node.clickable t ∈ page → hasPurchasePhrase t = false) :
    strat3 page = [] := by
  induction page with
  | nil => rfl
  | cons n ns ih =>
      have tail : strat3 ns = [] :=
        ih (fun b t hb ht => hbtn b t (List.mem_cons_of_mem _ hb) ht)
           (fun t ht => hclk t (List.mem_cons_of_mem _ ht))
      cases n with
      | perform b =>
          have hfil : b.buttons.filter hasPurchasePhrase = [] := by
            rw [List.filter_eq_nil_iff]
            intro t ht
            simp [hbtn b t (List.mem_cons_self _ _) ht]
          simpa [strat3, hfil] using tail
      | straySelect s => simpa [strat3] using tail
      | clickable t =>
          have hc : hasPurchasePhrase t = false := hclk t (List.mem_cons_self _ _)
          simpa [strat3, hc] using tail

theorem mem_strat3 {page : Page} {x : Listing} (hx : x ∈ strat3 page) :
    x = buttonListing := by
  unfold strat3 at hx
  rw [List.mem_flatten] at hx
  obtain ⟨l, hl, hxl⟩ := hx
  rw [List.mem_map] at hl
  obtain ⟨n, _, rfl⟩ := hl
  cases n with
  | perform b =>
      rw [List.mem_map] at hxl
      obtain ⟨t, _, rfl⟩ := hxl
      rfl
  | straySelect s => simp at hxl
  | clickable t =>
      by_cases h : hasPurchasePhrase t <;> simp [h] at hxl
      exact hxl

theorem strat3_cons (n : Node) (ns : List Node) :
    strat3 (n :: ns) =
      (match n with
       | Node.perform b => (b.buttons.filter hasPurchasePhrase).map fun _ => buttonListing
       | Node.straySelect _ => []
       | Node.clickable t => if hasPurchasePhrase t then [buttonListing] else []) ++
        strat3 ns := rfl

theorem countPurchaseButtons_cons (n : Node) (ns : List Node) :
    countPurchaseButtons (n :: ns) =
      (match n with
       | Node.perform b => (b.buttons.filter hasPurchasePhrase).length
       | Node.straySelect _ => 0
       | Node.clickable t => if hasPurchasePhrase t then 1 else 0) +
        countPurchaseButtons ns := by
  simp [countPurchaseButtons]

theorem strat3_length (page : Page) :
    (strat3 page).length = countPurchaseButtons page := by
  induction page with
  | nil => rfl
  | cons n ns ih =>
      rw [strat3_cons, countPurchaseButtons_cons, List.length_append, ih]
      cases n with
      | perform b => simp
      | straySelect s => simp
      | clickable t => by_cases h : hasPurchasePhrase t <;> simp [h]

/-! ## Concrete pages used to instantiate the detector theorems -/

/-- A performance block holding one ticket-select control. -/
def blockWithSelect : PerformList :=
  { muted := false, lead := some "12/25", venueP := some "Hall A",
    selects := [{ options := [{ hasTicketNo := true, text := "1" }] }],
    buttons := ["購入手続きへ"] }

/-- A sold-out performance block carrying the muted marker. -/
def blockMuted : PerformList :=
  { muted := true, lead := some "12/26", venueP := some "Hall B",
    selects := [], buttons := [] }

/-- A page holding both an available block with a selection control and a
muted block. -/
def pageBothMarkers : Page :=
  [Node.perform blockWithSelect, Node.perform blockMuted]

/-- A sold-out block with no control and no purchase-phrase button. -/
def blockSoldOut : PerformList :=
  { muted := true, lead := some "12/25", venueP := some "Hall A",
    selects := [], buttons := ["売り切れ"] }

/-- C2: check_event_tickets applies its three strategies in strict
priority order, stopping at the first that yields any result; on a page
containing both a ticket-quantity selection control inside a performance
block and a block carrying the muted marker class, the result is exactly
the strategy-1 output and every returned entry has the select method. -/
theorem C2_strategy_priority (page : Page) (b bm : PerformList) (s : TicketSelect)
    (hb : Node.perform b ∈ page) (hs : s ∈ b.selects)
    (hm : Node.perform bm ∈ page) (hmut : bm.muted = true) :
    (∀ q : Page, check_event_tickets q =
        if strat1 q = [] then (if strat2 q = [] then strat3 q else strat2 q)
        else strat1 q) ∧
    check_event_tickets page = strat1 page ∧
    ∀ x ∈ check_event_tickets page, x.method = Method.select := by
  have hne : strat1 page ≠ [] := by
    intro hnil
    have hmem := mem_strat1 hb hs
    rw [hnil] at hmem
    simp at hmem
  have heq : check_event_tickets page = strat1 page := by
    rw [check_priority, if_neg hne]
  exact ⟨check_priority, heq, fun x hx => strat1_method (heq ▸ hx)⟩

theorem C2_strategy_priority_witness :
    check_event_tickets pageBothMarkers = strat1 pageBothMarkers :=
  (C2_strategy_priority pageBothMarkers blockWithSelect blockMuted
      { options := [{ hasTicketNo := true, text := "1" }] }
      (by decide) (by decide) (by decide) rfl).2.1

/-- C6 as stated is false: a page on which strategies 1 and 2 yield
nothing and which holds two clickable elements whose text contains the
purchase phrase makes check_event_tickets return two synthetic entries,
not exactly one. -/
theorem C6_counterexample :
    check_event_tickets [Node.clickable "購入手続きへ", Node.clickable "購入手続きへ"] =
      [buttonListing, buttonListing] ∧
    (check_event_tickets
        [Node.clickable "購入手続きへ", Node.clickable "購入手続きへ"]).length ≠ 1 := by
  decide

/-- C6 amended: when strategies 1 and 2 yield nothing, the result is the
strategy-3 output: one synthetic entry with unknown date and venue and
empty ticket labels per clickable element whose text contains the
purchase-continuation phrase, so a page with n matching elements yields
n identical synthetic entries. -/
theorem C6_purchase_button (page : Page)
    (h1 : strat1 page = []) (h2 : strat2 page = []) :
    check_event_tickets page = strat3 page ∧
    (∀ x ∈ check_event_tickets page, x = buttonListing) ∧
    (check_event_tickets page).length = countPurchaseButtons page := by
  have heq : check_event_tickets page = strat3 page := by
    rw [check_priority, if_pos h1, if_pos h2]
  refine ⟨heq, fun x hx => mem_strat3 (heq ▸ hx), ?_⟩
  rw [heq, strat3_length]

theorem C6_purchase_button_witness :
    check_event_tickets [Node.clickable "購入手続きへ"] =
      strat3 [Node.clickable "購入手続きへ"] :=
  (C6_purchase_button [Node.clickable "購入手続きへ"] rfl rfl).1

/-- C7: a page whose every performance block carries the muted marker,
with no ticket-quantity selection control anywhere and no clickable
element containing the purchase phrase, yields the empty sequence. -/
theorem C7_empty_on_sold_out (page : Page)
    (hmut : ∀ b, Node.perform b ∈ page → b.muted = true)
    (hsel : ∀ b, Node.perform b ∈ page → b.selects = [])
    (hstray : ∀ s, Node.straySelect s ∈ page → False)
    (hbtn : ∀ b t, Node.perform b ∈ page → t ∈ b.buttons → hasPurchasePhrase t = false)
    (hclk : ∀ t, Node.clickable t ∈ page → hasPurchasePhrase t = false) :
    check_event_tickets page = [] := by
  rw [check_priority, if_pos (strat1_eq_nil hsel), if_pos (strat2_eq_nil hmut)]
  exact strat3_eq_nil hbtn hclk

theorem C7_empty_on_sold_out_witness :
    check_event_tickets [Node.perform blockSoldOut] = [] := by
  refine C7_empty_on_sold_out _ ?_ ?_ ?_ ?_ ?_
  · intro b hb
    rw [List.mem_singleton] at hb
    injection hb with h
    rw [h]
    rfl
  · intro b hb
    rw [List.mem_singleton] at hb
    injection hb with h
    rw [h]
    rfl
  · intro s hs
    rw [List.mem_singleton] at hs
    simp at hs
  · intro b t hb ht
    rw [List.mem_singleton] at hb
    injection hb with h
    rw [h] at ht
    rw [show blockSoldOut.buttons = ["売り切れ"] from rfl, List.mem_singleton] at ht
    rw [ht]
    decide
  · intro t ht
    rw [List.mem_singleton] at ht
    simp at ht

/-! ## Association-list lemmas for the notified mapping -/

theorem lookup_eq_none_keys {k : String} :
    ∀ {m : List (String × Int)}, k ∉ m.map Prod.fst → m.lookup k = none := by
  intro m
  induction m with
  | nil => intro _; rfl
  | cons kv rest ih =>
      obtain ⟨k0, v0⟩ := kv
      intro h
      simp only [List.map_cons, List.mem_cons] at h
      push_neg at h
      have hbeq : (k == k0) = false := by
        simp [h.1]
      simp [List.lookup, hbeq, ih h.2]

theorem not_mem_keys_of_lookup_eq_none {k : String} :
    ∀ {m : List (String × Int)}, m.lookup k = none → k ∉ m.map Prod.fst := by
  intro m
  induction m with
  | nil => intro _ h; simp at h
  | cons kv rest ih =>
      obtain ⟨k0, v0⟩ := kv
      intro h hmem
      by_cases hk : k = k0
      · subst hk
        simp [List.lookup] at h
      · have hbeq : (k == k0) = false := by simp [hk]
        simp only [List.lookup, hbeq] at h
        simp only [List.map_cons, List.mem_cons] at hmem
        rcases hmem with h1 | h2
        · exact hk h1
        · exact ih h h2

theorem lookup_filter_of_nodup (p : String × Int → Bool) {m : List (String × Int)}
    {k : String} {ts : Int} (hnd : (m.map Prod.fst).Nodup)
    (hk : m.lookup k = some ts) :
    (m.filter p).lookup k = if p (k, ts) then some ts else none := by
  induction m with
  | nil => simp [List.lookup] at hk
  | cons kv rest ih =>
      obtain ⟨k0, v0⟩ := kv
      simp only [List.map_cons, List.nodup_cons] at hnd
      by_cases hkk : k = k0
      · subst hkk
        have hts : v0 = ts := by
          simpa [List.lookup] using hk
        subst hts
        by_cases hp : p (k, v0)
        · simp [List.filter, hp, List.lookup]
        · have hrest : (rest.filter p).lookup k = none := by
            refine lookup_eq_none_keys fun hmem => hnd.1 ?_
            rw [List.mem_map] at hmem
            obtain ⟨kv2, hkv2, hfst⟩ := hmem
            exact hfst ▸ List.mem_map_of_mem Prod.fst (List.mem_of_mem_filter hkv2)
          simp [List.filter, hp, hrest]
      · have hbeq : (k == k0) = false := by simp [hkk]
        have hk2 : rest.lookup k = some ts := by
          simpa [List.lookup, hbeq] using hk
        by_cases hp : p (k0, v0)
        · simp [List.filter, hp, List.lookup, hbeq, ih hnd.2 hk2]
        · simp [List.filter, hp, ih hnd.2 hk2]

/-! ## Deduplication lemmas over the orchestrator -/

theorem processTickets_preserves {artist : String} {e : EventDesc} {now : Int}
    {k : String} {ts : Int} :
    ∀ (ls : List Listing) (st : MonState), st.notified.lookup k = some ts →
      (processTickets artist e now ls st).1.notified.lookup k = some ts ∧
      ∀ f ∈ (processTickets artist e now ls st).2,
        dedupKey e.path f.date f.venue ≠ k := by
  intro ls
  induction ls with
  | nil =>
      intro st hk
      exact ⟨hk, by simp [processTickets]⟩
  | cons t rest ih =>
      intro st hk
      by_cases hpresent : (st.notified.lookup (dedupKey e.path t.date t.venue)).isSome
      · have hres := ih st hk
        constructor
        · simpa [processTickets, hpresent] using hres.1
        · intro f hf
          refine hres.2 f ?_
          simpa [processTickets, hpresent] using hf
      · have hkey : dedupKey e.path t.date t.venue ≠ k := by
          intro hkk
          rw [hkk, hk] at hpresent
          simp at hpresent
        have hbeq : (k == dedupKey e.path t.date t.venue) = false := by
          simp
          intro hkk
          exact hkey hkk.symm
        have hk1 : (MonState.mk ((dedupKey e.path t.date t.venue, now) :: st.notified)
            st.lastCheck).notified.lookup k = some ts := by
          simp [List.lookup, hbeq, hk]
        have hres := ih _ hk1
        constructor
        · simpa [processTickets, hpresent] using hres.1
        · intro f hf
          simp only [processTickets, hpresent] at hf
          simp only [Bool.false_eq_true, if_false, List.mem_cons] at hf
          rcases hf with hf | hf
          · rw [hf]
            exact hkey
          · exact hres.2 f hf

theorem processTickets_new_key {artist : String} {e : EventDesc} {now : Int}
    {t : Listing} :
    ∀ (ls : List Listing) (st : MonState), t ∈ ls →
      st.notified.lookup (dedupKey e.path t.date t.venue) = none →
      ∃ f ∈ (processTickets artist e now ls st).2,
        dedupKey e.path f.date f.venue = dedupKey e.path t.date t.venue := by
  intro ls
  induction ls with
  | nil => intro st hmem _; simp at hmem
  | cons t0 rest ih =>
      intro st hmem hnone
      by_cases hpresent : (st.notified.lookup (dedupKey e.path t0.date t0.venue)).isSome
      · have hne : t ≠ t0 := by
          intro heq
          rw [heq] at hnone
          rw [hnone] at hpresent
          simp at hpresent
        have hmem2 : t ∈ rest := by
          rcases List.mem_cons.mp hmem with h | h
          · exact absurd h hne
          · exact h
        obtain ⟨f, hf, hfk⟩ := ih st hmem2 hnone
        exact ⟨f, by simpa [processTickets, hpresent] using hf, hfk⟩
      · by_cases hsame : dedupKey e.path t.date t.venue = dedupKey e.path t0.date t0.venue
        · refine ⟨{ artist := artist, event_name := e.name, event_url := e.url,
                    date := t0.date, venue := t0.venue, tickets := t0.tickets,
                    method := t0.method }, ?_, ?_⟩
          · simp [processTickets, hpresent]
          · exact hsame.symm
        · have hmem2 : t ∈ rest := by
            rcases List.mem_cons.mp hmem with h | h
            · exact absurd (by rw [h]) hsame
            · exact h
          have hbeq : (dedupKey e.path t.date t.venue ==
              dedupKey e.path t0.date t0.venue) = false := by
            simp [hsame]
          have hnone2 : (MonState.mk ((dedupKey e.path t0.date t0.venue, now) :: st.notified)
              st.lastCheck).notified.lookup (dedupKey e.path t.date t.venue) = none := by
            simp [List.lookup, hbeq, hnone]
          obtain ⟨f, hf, hfk⟩ := ih _ hmem2 hnone2
          refine ⟨f, ?_, hfk⟩
          simp only [processTickets, hpresent, Bool.false_eq_true, if_false, List.mem_cons]
          exact Or.inr hf

theorem processTickets_nodup {artist : String} {e : EventDesc} {now : Int} :
    ∀ (ls : List Listing) (st : MonState), (st.notified.map Prod.fst).Nodup →
      ((processTickets artist e now ls st).1.notified.map Prod.fst).Nodup := by
  intro ls
  induction ls with
  | nil => intro st hnd; simpa [processTickets] using hnd
  | cons t rest ih =>
      intro st hnd
      by_cases hpresent : (st.notified.lookup (dedupKey e.path t.date t.venue)).isSome
      · simpa [processTickets, hpresent] using ih st hnd
      · have hnone : st.notified.lookup (dedupKey e.path t.date t.venue) = none := by
          cases h : st.notified.lookup (dedupKey e.path t.date t.venue)
          · rfl
          · rw [h] at hpresent; simp at hpresent
        have hnd1 : (((dedupKey e.path t.date t.venue, now) :: st.notified).map
            Prod.fst).Nodup := by
          rw [List.map_cons, List.nodup_cons]
          exact ⟨not_mem_keys_of_lookup_eq_none hnone, hnd⟩
        simpa [processTickets, hpresent] using
          ih (MonState.mk ((dedupKey e.path t.date t.venue, now) :: st.notified)
            st.lastCheck) hnd1

theorem processEvents_preserves {artist : String}
    {checkT : EventDesc → Except Unit (List Listing)} {now : Int}
    {k : String} {ts : Int} :
    ∀ (es : List EventDesc) (st : MonState), st.notified.lookup k = some ts →
      (processEvents artist checkT now es st).1.notified.lookup k = some ts := by
  intro es
  induction es with
  | nil => intro st hk; simpa [processEvents] using hk
  | cons e rest ih =>
      intro st hk
      cases hchk : checkT e with
      | error err => simpa [processEvents, hchk] using ih st hk
      | ok tickets =>
          by_cases hemp : tickets.isEmpty
          · simpa [processEvents, hchk, hemp] using ih st hk
          · have h1 := (@processTickets_preserves artist e now k ts tickets st hk).1
            simpa [processEvents, hchk, hemp] using ih _ h1

theorem processEvents_nodup {artist : String}
    {checkT : EventDesc → Except Unit (List Listing)} {now : Int} :
    ∀ (es : List EventDesc) (st : MonState), (st.notified.map Prod.fst).Nodup →
      ((processEvents artist checkT now es st).1.notified.map Prod.fst).Nodup := by
  intro es
  induction es with
  | nil => intro st hnd; simpa [processEvents] using hnd
  | cons e rest ih =>
      intro st hnd
      cases hchk : checkT e with
      | error err => simpa [processEvents, hchk] using ih st hnd
      | ok tickets =>
          by_cases hemp : tickets.isEmpty
          · simpa [processEvents, hchk, hemp] using ih st hnd
          · have h1 := @processTickets_nodup artist e now tickets st hnd
            simpa [processEvents, hchk, hemp] using ih _ h1

theorem processArtists_preserves {listE : String → Except Unit (List EventDesc)}
    {checkT : EventDesc → Except Unit (List Listing)} {now : Int}
    {k : String} {ts : Int} :
    ∀ (as : List String) (st st2 : MonState) (fs : List Finding),
      st.notified.lookup k = some ts →
      processArtists listE checkT now as st = Except.ok (st2, fs) →
      st2.notified.lookup k = some ts := by
  intro as
  induction as with
  | nil =>
      intro st st2 fs hk hrun
      simp only [processArtists, Except.ok.injEq, Prod.mk.injEq] at hrun
      rw [← hrun.1]
      exact hk
  | cons a rest ih =>
      intro st st2 fs hk hrun
      cases hlist : listE a with
      | error err => simp [processArtists, hlist] at hrun
      | ok events =>
          simp only [processArtists, hlist] at hrun
          cases hrec : processArtists listE checkT now rest
              (processEvents a checkT now events st).1 with
          | error err => rw [hrec] at hrun; simp at hrun
          | ok r2 =>
              rw [hrec] at hrun
              simp only [Except.ok.injEq, Prod.mk.injEq] at hrun
              have h1 := @processEvents_preserves a checkT now k ts events st hk
              have h2 := ih _ r2.1 r2.2 h1 (by rw [hrec])
              rw [← hrun.1]
              exact h2

theorem processArtists_nodup {listE : String → Except Unit (List EventDesc)}
    {checkT : EventDesc → Except Unit (List Listing)} {now : Int} :
    ∀ (as : List String) (st st2 : MonState) (fs : List Finding),
      (st.notified.map Prod.fst).Nodup →
      processArtists listE checkT now as st = Except.ok (st2, fs) →
      (st2.notified.map Prod.fst).Nodup := by
  intro as
  induction as with
  | nil =>
      intro st st2 fs hnd hrun
      simp only [processArtists, Except.ok.injEq, Prod.mk.injEq] at hrun
      rw [← hrun.1]
      exact hnd
  | cons a rest ih =>
      intro st st2 fs hnd hrun
      cases hlist : listE a with
      | error err => simp [processArtists, hlist] at hrun
      | ok events =>
          simp only [processArtists, hlist] at hrun
          cases hrec : processArtists listE checkT now rest
              (processEvents a checkT now events st).1 with
          | error err => rw [hrec] at hrun; simp at hrun
          | ok r2 =>
              rw [hrec] at hrun
              simp only [Except.ok.injEq, Prod.mk.injEq] at hrun
              have h1 := @processEvents_nodup a checkT now events st hnd
              have h2 := ih _ r2.1 r2.2 h1 (by rw [hrec])
              rw [← hrun.1]
              exact h2

/-- C1: once a dedup key is present in the notified mapping it is never
re-notified and never mutated: processing further availability entries
yields no finding whose key equals it and leaves its timestamp intact
through the whole cycle, and after the cycle the entry is still present
with its original timestamp exactly when the age-based pruning pass
retains it. -/
theorem C1_notified_once (artist : String) (e : EventDesc)
    (listE : String → Except Unit (List EventDesc))
    (checkT : EventDesc → Except Unit (List Listing))
    (now : Int) (ls : List Listing) (as : List String)
    (st st2 stc : MonState) (fs fsc : List Finding)
    (file : Option MonState) (k : String) (ts : Int) :
    (st.notified.lookup k = some ts →
      (processTickets artist e now ls st).1.notified.lookup k = some ts ∧
      ∀ f ∈ (processTickets artist e now ls st).2,
        dedupKey e.path f.date f.venue ≠ k) ∧
    (st.notified.lookup k = some ts →
      processArtists listE checkT now as st = Except.ok (st2, fs) →
      st2.notified.lookup k = some ts) ∧
    (((load_state file).notified.map Prod.fst).Nodup →
      (load_state file).notified.lookup k = some ts →
      run_check listE checkT as now file = Except.ok (stc, fsc) →
      stc.notified.lookup k = if now - 30 * 86400 < ts then some ts else none) := by
  refine ⟨fun hk => @processTickets_preserves artist e now k ts ls st hk,
          fun hk hrun => processArtists_preserves as st st2 fs hk hrun,
          fun hnd hk hrun => ?_⟩
  unfold run_check at hrun
  cases hrunA : processArtists listE checkT now as (load_state file) with
  | error err =>
      simp only [hrunA] at hrun
      exact absurd hrun (by simp)
  | ok r =>
      simp only [hrunA, Except.ok.injEq, Prod.mk.injEq] at hrun
      have hrunA2 : processArtists listE checkT now as (load_state file) =
          Except.ok (r.1, r.2) := by rw [hrunA]
      have hpres := processArtists_preserves as (load_state file) r.1 r.2 hk hrunA2
      have hndr := processArtists_nodup as (load_state file) r.1 r.2 hnd hrunA2
      have hfil := lookup_filter_of_nodup
        (fun kv => decide (now - 30 * 86400 < kv.2)) hndr hpres
      have hstc : stc.notified = pruneNotified now r.1.notified := by
        rw [← hrun.1]
        rfl
      rw [hstc]
      unfold pruneNotified
      rw [hfil]
      by_cases hc : now - 30 * 86400 < ts
      · simp [hc]
      · simp [hc]

theorem C1_notified_once_witness :
    (MonState.mk [("k", 100)] (some 200)).notified.lookup "k" =
      if (200 : Int) - 30 * 86400 < 100 then some (100 : Int) else none :=
  (C1_notified_once "a" { name := "n", url := "u", path := "/p" }
      (fun _ => Except.ok []) (fun _ => Except.ok []) 200 [] []
      (MonState.mk [("k", 100)] none) (MonState.mk [] none)
      (MonState.mk [("k", 100)] (some 200)) [] []
      (some (MonState.mk [("k", 100)] none)) "k" 100).2.2
    (by decide) (by decide) rfl

/-- C4: the pruning pass retains an entry of the notified mapping exactly
when its timestamp is strictly inside the 30*86400-second retention
window; in particular an entry timestamped now - 30 days - 1 second is
removed and one timestamped now - 30 days + 1 second is kept. -/
theorem C4_pruning_boundary (now ts : Int) (m : List (String × Int)) (k : String)
    (hmem : (k, ts) ∈ m) :
    ((k, ts) ∈ pruneNotified now m ↔ now - 30 * 86400 < ts) ∧
    (ts = now - 30 * 86400 - 1 → (k, ts) ∉ pruneNotified now m) ∧
    (ts = now - 30 * 86400 + 1 → (k, ts) ∈ pruneNotified now m) := by
  have hiff : (k, ts) ∈ pruneNotified now m ↔ now - 30 * 86400 < ts := by
    unfold pruneNotified
    rw [List.mem_filter]
    simp [hmem]
  refine ⟨hiff, fun h => ?_, fun h => ?_⟩
  · rw [hiff, h]
    omega
  · rw [hiff, h]
    omega

theorem C4_pruning_boundary_witness :
    ("old", (-2592001 : Int)) ∉ pruneNotified 0 [("old", -2592001)] ∧
    ("new", (-2591999 : Int)) ∈ pruneNotified 0 [("new", -2591999)] :=
  ⟨(C4_pruning_boundary 0 (-2592001) [("old", -2592001)] "old" (by decide)).2.1
      (by decide),
   (C4_pruning_boundary 0 (-2591999) [("new", -2591999)] "new" (by decide)).2.2
      (by decide)⟩

/-- C10: when no state file exists, load_state yields a state whose
notified mapping is empty and whose last_check is unset; hence in the
first cycle every detected (path, date, venue) key is new and the cycle
emits a finding carrying that key. -/
theorem C10_initial_state (artist : String) (e : EventDesc) (now : Int)
    (ls : List Listing) (t : Listing) (hmem : t ∈ ls) :
    load_state none = MonState.mk [] none ∧
    (processTickets artist e now ls (load_state none)).2.any
      (fun f => dedupKey e.path f.date f.venue ==
        dedupKey e.path t.date t.venue) = true := by
  refine ⟨rfl, ?_⟩
  rw [List.any_eq_true]
  obtain ⟨f, hf, hfk⟩ :=
    @processTickets_new_key artist e now t ls (load_state none) hmem rfl
  exact ⟨f, hf, by simp [hfk]⟩

theorem C10_initial_state_witness :
    load_state none = MonState.mk [] none ∧
    (processTickets "A" { name := "n", url := "u", path := "/p" } 0
        [{ date := "d", venue := "v", tickets := [], method := Method.active }]
        (load_state none)).2.any
      (fun f => dedupKey "/p" f.date f.venue == dedupKey "/p" "d" "v") = true :=
  C10_initial_state "A" { name := "n", url := "u", path := "/p" } 0
    [{ date := "d", venue := "v", tickets := [], method := Method.active }]
    { date := "d", venue := "v", tickets := [], method := Method.active }
    (by decide)

/-! ## Dedup key collision analysis (C5) -/

theorem append_pipe_cancel :
    ∀ (l1 : List Char) (l2 : List Char) (r1 r2 : List Char),
      Char.ofNat 124 ∉ l1 → Char.ofNat 124 ∉ l2 →
      l1 ++ Char.ofNat 124 :: r1 = l2 ++ Char.ofNat 124 :: r2 →
      l1 = l2 ∧ r1 = r2 := by
  intro l1
  induction l1 with
  | nil =>
      intro l2 r1 r2 _ h2 h
      cases l2 with
      | nil => simpa using h
      | cons c cs =>
          rw [List.nil_append, List.cons_append] at h
          injection h with hc _
          exact absurd (hc ▸ List.mem_cons_self _ _) h2
  | cons c cs ih =>
      intro l2 r1 r2 h1 h2 h
      cases l2 with
      | nil =>
          rw [List.nil_append, List.cons_append] at h
          injection h with hc _
          exact absurd (hc ▸ List.mem_cons_self _ _) h1
      | cons d ds =>
          rw [List.cons_append, List.cons_append] at h
          injection h with hc ht
          have hrec := ih ds r1 r2
            (fun hm => h1 (List.mem_cons_of_mem _ hm))
            (fun hm => h2 (List.mem_cons_of_mem _ hm)) ht
          exact ⟨by rw [hc, hrec.1], hrec.2⟩

theorem dedupKey_data (p d v : String) :
    (dedupKey p d v).data = p.data ++ Char.ofNat 124 :: (d.data ++ Char.ofNat 124 :: v.data) := by
  have hpipe : ("|" : String).data = [Char.ofNat 124] := by decide
  simp [dedupKey, String.data_append, hpipe]

/-- C5 as stated is false: the pipe-joined key does not uniquely identify
the (path, date, venue) triple, since a pipe inside a component shifts
the separators; two distinct triples produce the same key. -/
theorem C5_counterexample :
    dedupKey "a|b" "c" "d" = dedupKey "a" "b|c" "d" ∧
    ("a|b", "c", "d") ≠ (("a", "b|c", "d") : String × String × String) := by
  constructor
  · rfl
  · decide

/-- C5 amended: the same triple always maps to the same key, and the key
determines the triple whenever the path and date components contain no
pipe separator character; distinct triples can collide only through a
component containing the separator. -/
theorem C5_dedup_key (p1 d1 v1 p2 d2 v2 : String)
    (hp1 : Char.ofNat 124 ∉ p1.data) (hd1 : Char.ofNat 124 ∉ d1.data)
    (hp2 : Char.ofNat 124 ∉ p2.data) (hd2 : Char.ofNat 124 ∉ d2.data) :
    dedupKey p1 d1 v1 = dedupKey p2 d2 v2 ↔ p1 = p2 ∧ d1 = d2 ∧ v1 = v2 := by
  constructor
  · intro h
    rw [String.ext_iff, dedupKey_data, dedupKey_data] at h
    have h1 := append_pipe_cancel p1.data p2.data _ _ hp1 hp2 h
    have h2 := append_pipe_cancel d1.data d2.data _ _ hd1 hd2 h1.2
    exact ⟨String.ext_iff.mpr h1.1, String.ext_iff.mpr h2.1, String.ext_iff.mpr h2.2⟩
  · rintro ⟨rfl, rfl, rfl⟩
    rfl

theorem C5_dedup_key_witness :
    dedupKey "/a/1" "12/25" "Hall A" ≠ dedupKey "/a/1" "12/25" "Hall B" := by
  intro h
  have hd := (C5_dedup_key "/a/1" "12/25" "Hall A" "/a/1" "12/25" "Hall B"
    (by decide) (by decide) (by decide) (by decide)).mp h
  exact absurd hd.2.2 (by decide)

/-! ## Listing Extractor lemmas (C8) -/

theorem collectEvents_eq (artistId : Nat) :
    ∀ (ls : List Link) (seen : List String),
      collectEvents artistId ls seen =
        (firstOccurrences (ls.filter fun l => matchesEventPath artistId l.href)
          seen).map mkEventDesc := by
  intro ls
  induction ls with
  | nil => intro seen; rfl
  | cons l rest ih =>
      intro seen
      by_cases hm : matchesEventPath artistId l.href
      · by_cases hs : l.href ∈ seen
        · have hsb : seen.contains l.href = true := by simp [hs]
          simp [collectEvents, firstOccurrences, hm, hs, hsb, ih]
        · have hsb : seen.contains l.href = false := by simp [hs]
          simp [collectEvents, firstOccurrences, hm, hs, hsb, ih]
      · simp [collectEvents, firstOccurrences, hm, ih]

theorem mem_firstOccurrences :
    ∀ (ls : List Link) (seen : List String) (l : Link),
      l ∈ firstOccurrences ls seen → l ∈ ls := by
  intro ls
  induction ls with
  | nil => intro seen l h; simpa [firstOccurrences] using h
  | cons l0 rest ih =>
      intro seen l h
      by_cases hs : seen.contains l0.href
      · simp only [firstOccurrences, hs, if_true] at h
        exact List.mem_cons_of_mem _ (ih seen l h)
      · simp only [firstOccurrences, hs, Bool.false_eq_true, if_false,
          List.mem_cons] at h
        rcases h with h | h
        · exact h ▸ List.mem_cons_self _ _
        · exact List.mem_cons_of_mem _ (ih _ l h)

/-- C8: get_event_urls yields an empty sequence when the artist name is
not in the id table; otherwise it yields, in document order, one event
descriptor per first occurrence of each matching href, and every
descriptor comes from a page link, its name being the first line of that
link's visible text and its path the raw href. -/
theorem C8_listing_extractor :
    (∀ name links, ARTIST_IDS.lookup name = none →
        get_event_urls name links = []) ∧
    (∀ name artistId links, ARTIST_IDS.lookup name = some artistId →
        get_event_urls name links =
          (firstOccurrences (links.filter fun l => matchesEventPath artistId l.href)
            []).map mkEventDesc) ∧
    (∀ name links e, e ∈ get_event_urls name links →
        ∃ l, l ∈ links ∧ e.name = firstLine l.text ∧ e.path = l.href) := by
  refine ⟨fun name links h => by simp [get_event_urls, h], ?_, ?_⟩
  · intro name artistId links h
    simp [get_event_urls, h, collectEvents_eq]
  · intro name links e he
    unfold get_event_urls at he
    cases h : ARTIST_IDS.lookup name with
    | none => rw [h] at he; simp at he
    | some artistId =>
        rw [h] at he
        have he2 : e ∈ collectEvents artistId links [] := he
        rw [collectEvents_eq] at he2
        clear he
        rw [List.mem_map] at he2
        obtain ⟨l, hl, rfl⟩ := he2
        have hl2 : l ∈ links.filter fun l => matchesEventPath artistId l.href :=
          mem_firstOccurrences _ _ _ hl
        exact ⟨l, List.mem_of_mem_filter hl2, rfl, rfl⟩

theorem C8_listing_extractor_witness :
    get_event_urls "SixTONES" [{ href := "/events/artist/40/101", text := "A\nB" }] =
      (firstOccurrences
          (List.filter (fun l => matchesEventPath 40 l.href)
            [{ href := "/events/artist/40/101", text := "A\nB" }]) []).map
        mkEventDesc :=
  C8_listing_extractor.2.1 "SixTONES" 40
    [{ href := "/events/artist/40/101", text := "A\nB" }] (by decide)

/-! ## Error isolation (C3) and the continuous loop (C9) -/

/-- A concrete event used to exhibit the behaviour of the cycle. -/
def eventB : EventDesc :=
  { name := "E", url := BASE_URL ++ "/events/artist/40/101",
    path := "/events/artist/40/101" }

/-- A concrete availability entry used to exhibit the behaviour of the
cycle. -/
def listingB : Listing :=
  { date := "12/25", venue := "Hall A", tickets := ["1"], method := Method.select }

/-- C3 as stated is false for the artist unit: when fetching the event
list of artist A raises, run_check propagates the exception, so the
whole cycle aborts with no findings and no persisted state, although
running the same cycle on artist B alone yields a finding and a
persisted state. -/
theorem C3_counterexample :
    run_check
        (fun a => if a = "A" then Except.error () else Except.ok [eventB])
        (fun _ => Except.ok [listingB]) ["A", "B"] 0 none = Except.error () ∧
    run_check
        (fun a => if a = "A" then Except.error () else Except.ok [eventB])
        (fun _ => Except.ok [listingB]) ["B"] 0 none =
      Except.ok
        ({ notified := [(dedupKey eventB.path listingB.date listingB.venue, 0)],
           lastCheck := some 0 },
         [{ artist := "B", event_name := eventB.name, event_url := eventB.url,
            date := listingB.date, venue := listingB.venue,
            tickets := listingB.tickets, method := listingB.method }]) := by
  constructor
  · rfl
  · rfl

/-- C3 amended: an exception raised while checking one event is caught
and is equivalent to that event reporting no availability, so the other
events and artists of the cycle still contribute their findings; and
when every artist listing succeeds the cycle runs to completion and
persists state. An exception raised while listing one artist's events,
however, is not caught inside the cycle and aborts it. -/
theorem C3_event_isolation :
    (∀ (artist : String) (checkT : EventDesc → Except Unit (List Listing))
        (now : Int) (es : List EventDesc) (st : MonState),
      processEvents artist
          (fun e => match checkT e with
            | Except.error _ => Except.ok []
            | Except.ok ts => Except.ok ts) now es st =
        processEvents artist checkT now es st) ∧
    (∀ (listE : String → Except Unit (List EventDesc))
        (checkT : EventDesc → Except Unit (List Listing))
        (now : Int) (as : List String) (st : MonState),
      (∀ a ∈ as, ∃ evs, listE a = Except.ok evs) →
      ∃ st2 fs, processArtists listE checkT now as st = Except.ok (st2, fs)) ∧
    (∀ (listE : String → Except Unit (List EventDesc))
        (checkT : EventDesc → Except Unit (List Listing))
        (as : List String) (now : Int) (file : Option MonState),
      (∀ a ∈ as, ∃ evs, listE a = Except.ok evs) →
      ∃ st2 fs, run_check listE checkT as now file = Except.ok (st2, fs)) := by
  have h1 : ∀ (artist : String) (checkT : EventDesc → Except Unit (List Listing))
      (now : Int) (es : List EventDesc) (st : MonState),
      processEvents artist
          (fun e => match checkT e with
            | Except.error _ => Except.ok []
            | Except.ok ts => Except.ok ts) now es st =
        processEvents artist checkT now es st := by
    intro artist checkT now es
    induction es with
    | nil => intro st; rfl
    | cons e rest ih =>
        intro st
        cases hchk : checkT e with
        | error err => simp [processEvents, hchk, ih, List.isEmpty]
        | ok tickets =>
            by_cases hemp : tickets.isEmpty
            · simp [processEvents, hchk, hemp, ih]
            · simp [processEvents, hchk, hemp, ih]
  have h2 : ∀ (listE : String → Except Unit (List EventDesc))
      (checkT : EventDesc → Except Unit (List Listing))
      (now : Int) (as : List String) (st : MonState),
      (∀ a ∈ as, ∃ evs, listE a = Except.ok evs) →
      ∃ st2 fs, processArtists listE checkT now as st = Except.ok (st2, fs) := by
    intro listE checkT now as
    induction as with
    | nil => intro st _; exact ⟨st, [], rfl⟩
    | cons a rest ih =>
        intro st hok
        obtain ⟨evs, hevs⟩ := hok a (List.mem_cons_self _ _)
        obtain ⟨st2, fs, hrec⟩ :=
          ih (processEvents a checkT now evs st).1
            fun x hx => hok x (List.mem_cons_of_mem _ hx)
        exact ⟨st2, (processEvents a checkT now evs st).2 ++ fs, by
          simp [processArtists, hevs, hrec]⟩
  refine ⟨h1, h2, fun listE checkT as now file hok => ?_⟩
  obtain ⟨st2, fs, hrun⟩ := h2 listE checkT now as (load_state file) hok
  refine ⟨save_state now
      { st2 with notified := pruneNotified now st2.notified }, fs, ?_⟩
  simp [run_check, hrun]

theorem C3_event_isolation_witness :
    processEvents "B"
        (fun e => match (fun _ : EventDesc => (Except.error () : Except Unit (List Listing))) e with
          | Except.error _ => Except.ok []
          | Except.ok ts => Except.ok ts) 0 [eventB] (load_state none) =
      processEvents "B" (fun _ => Except.error ()) 0 [eventB] (load_state none) :=
  C3_event_isolation.1 "B" (fun _ => Except.error ()) 0 [eventB] (load_state none)

/-- C9: in continuous mode an exception escaping run_check never ends
the loop: the iteration is the run, the logged trace, and the standard
wait, after which (absent interrupts) the next cycle runs; and with no
interrupt anywhere the loop emits at least one step per unrolling, so
it never terminates on its own. -/
theorem C9_loop_survives :
    (∀ (cycle : Nat → CycleOutcome) (si : Nat → Bool) (fuel i : Nat),
      cycle i = CycleOutcome.exc →
      mainLoop cycle si (fuel + 1) i =
        LoopStep.runCheck i :: LoopStep.logTrace i :: LoopStep.wait i ::
          (if si i then [] else mainLoop cycle si fuel (i + 1))) ∧
    (∀ (cycle : Nat → CycleOutcome) (si : Nat → Bool) (fuel i : Nat),
      cycle i = CycleOutcome.exc → si i = false →
      LoopStep.runCheck (i + 1) ∈ mainLoop cycle si (fuel + 2) i) ∧
    (∀ (cycle : Nat → CycleOutcome) (si : Nat → Bool) (i fuel : Nat),
      (∀ j, cycle j ≠ CycleOutcome.interrupt) → (∀ j, si j = false) →
      fuel ≤ (mainLoop cycle si fuel i).length) := by
  have h1 : ∀ (cycle : Nat → CycleOutcome) (si : Nat → Bool) (fuel i : Nat),
      cycle i = CycleOutcome.exc →
      mainLoop cycle si (fuel + 1) i =
        LoopStep.runCheck i :: LoopStep.logTrace i :: LoopStep.wait i ::
          (if si i then [] else mainLoop cycle si fuel (i + 1)) := by
    intro cycle si fuel i hc
    simp [mainLoop, hc]
  refine ⟨h1, ?_, ?_⟩
  · intro cycle si fuel i hc hsi
    rw [h1 cycle si (fuel + 1) i hc, hsi]
    simp only [Bool.false_eq_true, if_false]
    cases hc2 : cycle (i + 1) <;>
      simp [mainLoop, hc2]
  · intro cycle si i fuel hnotint hnosleep
    induction fuel generalizing i with
    | zero => simp [mainLoop]
    | succ n ih =>
        cases hc : cycle i with
        | interrupt => exact absurd hc (hnotint i)
        | ok =>
            simp only [mainLoop, hc, hnosleep i, Bool.false_eq_true, if_false]
            have := ih (i + 1)
            simp only [List.length_cons]
            omega
        | exc =>
            simp only [mainLoop, hc, hnosleep i, Bool.false_eq_true, if_false]
            have := ih (i + 1)
            simp only [List.length_cons]
            omega

theorem C9_loop_survives_witness :
    mainLoop (fun _ => CycleOutcome.exc) (fun _ => false) 2 0 =
      LoopStep.runCheck 0 :: LoopStep.logTrace 0 :: LoopStep.wait 0 ::
        (if (fun _ : Nat => false) 0 then []
         else mainLoop (fun _ => CycleOutcome.exc) (fun _ => false) 1 1) :=
  C9_loop_survives.1 (fun _ => CycleOutcome.exc) (fun _ => false) 1 0 rfl

end ReliefMonitor
